import Mathlib

/-
Verification of the inverted-pendulum simulator (ip.py): the dynamics model
(InvertedPendulum) embedded over the reals, and the controller assembly
(create_controller) embedded as concrete list data.
-/

open Real

namespace IP

/-- Gravitational acceleration constant used by the model (ip.py line 88). -/
noncomputable def g : ℝ := 9.80665

/-- Floor-style modulo on the reals, the semantics of the Python operator
a % b for floats: the remainder a - b * floor (a / b). -/
noncomputable def fmod (a b : ℝ) : ℝ := a - b * (⌊a / b⌋ : ℤ)

/-- Principal value of an angle, InvertedPendulum.__pv:
(x + pi) % (2 * pi) - pi. -/
noncomputable def pv (x : ℝ) : ℝ := fmod (x + π) (2 * π) - π

/-- The immutable physical constants of InvertedPendulum.__init__:
pendulum length l, pendulum mass m, cart mass mc, time step dt. -/
structure Params where
  l : ℝ
  m : ℝ
  mc : ℝ
  dt : ℝ

/-- The mutable state of InvertedPendulum: angular position O, angular
velocity w, cart position x, cart speed v. -/
structure State where
  O : ℝ
  w : ℝ
  x : ℝ
  v : ℝ

/-- The state installed by InvertedPendulum.__init__: all four state
variables zero. -/
def init : State := ⟨0, 0, 0, 0⟩

/-- InvertedPendulum.set_state: the angle is normalized by pv on write,
the other components are stored unchanged. -/
noncomputable def set_state (O w x v : ℝ) : State := ⟨pv O, w, x, v⟩

/-- InvertedPendulum.get_state: the state as an ordered tuple
(O, w, x, v). -/
def get_state (s : State) : ℝ × ℝ × ℝ × ℝ := (s.O, s.w, s.x, s.v)

/-- The angular acceleration q computed by InvertedPendulum.apply
(ip.py line 101). -/
noncomputable def qacc (p : Params) (s : State) (F : ℝ) : ℝ :=
  (g * Real.sin s.O + (-F - p.m * p.l * s.w * s.w * Real.sin s.O) *
      Real.cos s.O / (p.m + p.mc)) /
    (p.l * (4 / 3 - p.m * Real.cos s.O * Real.cos s.O / (p.m + p.mc)))

/-- The linear acceleration a computed by InvertedPendulum.apply
(ip.py line 102). -/
noncomputable def aacc (p : Params) (s : State) (F : ℝ) : ℝ :=
  F - (p.m * p.l * (s.w * s.w * Real.sin s.O - qacc p s F * Real.cos s.O)) /
    (p.m + p.mc)

/-- InvertedPendulum.apply: semi-implicit Euler step. The new angular
velocity w + q * dt advances the angle, and the new linear velocity
v + a * dt advances the cart position (ip.py lines 104-107). -/
noncomputable def apply (p : Params) (s : State) (F : ℝ) : State :=
  ⟨pv (s.O + (s.w + qacc p s F * p.dt) * p.dt),
   s.w + qacc p s F * p.dt,
   s.x + (s.v + aacc p s F * p.dt) * p.dt,
   s.v + aacc p s F * p.dt⟩

/-- The angular acceleration exactly as the specification writes it,
with powers for the squared terms. -/
noncomputable def specQ (p : Params) (s : State) (F : ℝ) : ℝ :=
  (g * Real.sin s.O + (-F - p.m * p.l * s.w ^ 2 * Real.sin s.O) *
      Real.cos s.O / (p.m + p.mc)) /
    (p.l * (4 / 3 - p.m * Real.cos s.O ^ 2 / (p.m + p.mc)))

/-- The linear acceleration exactly as the specification writes it. -/
noncomputable def specA (p : Params) (s : State) (F : ℝ) : ℝ :=
  F - (p.m * p.l * (s.w ^ 2 * Real.sin s.O - specQ p s F * Real.cos s.O)) /
    (p.m + p.mc)

/-- One time step exactly as the specification writes it: velocity
updates first, then the updated velocities advance angle and position. -/
noncomputable def applySpec (p : Params) (s : State) (F : ℝ) : State :=
  ⟨pv (s.O + (s.w + specQ p s F * p.dt) * p.dt),
   s.w + specQ p s F * p.dt,
   s.x + (s.v + specA p s F * p.dt) * p.dt,
   s.v + specA p s F * p.dt⟩

/-- Reachable states of the dynamics model: the freshly constructed zero
state, and anything produced from a reachable state by set_state or by
apply. -/
inductive Reachable (p : Params) : State → Prop
  | base : Reachable p init
  | set (s : State) (O w x v : ℝ) : Reachable p s →
      Reachable p (set_state O w x v)
  | step (s : State) (F : ℝ) : Reachable p s → Reachable p (apply p s F)

/-- Pointwise negation of a state. -/
def negState (s : State) : State := ⟨-s.O, -s.w, -s.x, -s.v⟩

/-- Repeated application of apply with a fixed force. -/
noncomputable def evolve (p : Params) (F : ℝ) : ℕ → State → State
  | 0, s => s
  | n + 1, s => evolve p F n (apply p s F)

/-- Category names of the angle variable O, low to high (ip.py line 125). -/
def O_names : List String := ["Ovbn", "Obn", "Osn", "Oz", "Osp", "Obp", "Ovbp"]

/-- Category names of the angular-velocity variable w (ip.py line 136). -/
def w_names : List String := ["wbn", "wsn", "wz", "wsp", "wbp"]

/-- Category names of the force output variable F (ip.py line 151). -/
def F_names : List String :=
  ["Fvvbn", "Fvbn", "Fbn", "Fsn", "Fz", "Fsp", "Fbp", "Fvbp", "Fvvbp"]

/-- Category names of the cart-position variable x (ip.py line 175). -/
def x_names : List String := ["xn", "xz", "xp"]

/-- Category names of the cart-speed variable v (ip.py line 181). -/
def v_names : List String := ["vn", "vz", "vp"]

/-- The primary 7 x 5 decision grid of ip.py lines 159-167: each row is an
O category, each column a w category, each cell an F category. -/
def table_names : List (List String) :=
  [["Fvvbn", "Fvvbn", "Fvbn", "Fbn", "Fsn"],
   ["Fvvbn", "Fvbn", "Fbn", "Fsn", "Fz"],
   ["Fvbn", "Fbn", "Fsn", "Fz", "Fsp"],
   ["Fbn", "Fsn", "Fz", "Fsp", "Fbp"],
   ["Fsn", "Fz", "Fsp", "Fbp", "Fvbp"],
   ["Fz", "Fsp", "Fbp", "Fvbp", "Fvvbp"],
   ["Fsp", "Fbp", "Fvbp", "Fvvbp", "Fvvbp"]]

/-- The secondary 3 x 3 decision grid of ip.py lines 186-190 (cart
position x cart speed), whose registration with the engine is commented
out in the source (ip.py lines 191-193). -/
def secondary_table_names : List (List String) :=
  [["Fbp", "Fbp", "Fz"],
   ["Fbp", "Fz", "Fbn"],
   ["Fz", "Fbn", "Fbn"]]

/-- Modelled from the spec: a membership-function descriptor produced by
the external Membership Partitioner (flat_saw, module mf, absent from the
sources): the interval partitioned, the partition count, and the index of
this category within the low-to-high ordering. -/
structure MF where
  lo : ℝ
  hi : ℝ
  count : ℕ
  idx : ℕ

/-- Modelled from the spec: the external Membership Partitioner flat_saw
(module mf, absent from the sources) returns, in low-to-high order, n
membership-function descriptors partitioning the interval (lo, hi) into n
evenly spaced overlapping regions. -/
def flat_saw (lo hi : ℝ) (n : ℕ) : List MF :=
  (List.range n).map (fun i => ⟨lo, hi, n, i⟩)

/-- A linguistic variable: its adjectives, keyed by category name, in
construction order. Adjectives are identified here by name plus their
membership descriptor. -/
structure LingVar where
  adjectives : List (String × MF)

/-- A rule table as handed to the engine: row adjectives, column
adjectives, and the cell grid, each adjective denoted by its (unique)
category name. -/
structure RuleTable where
  rows : List String
  cols : List String
  cells : List (List String)

/-- Modelled from the spec: the external fuzzy inference engine
(PendulumController, module control, absent from the sources) holds named
variables and the rule tables registered with it. -/
structure Controller where
  vars : List (String × LingVar)
  tables : List RuleTable

/-- Modelled from the spec: registering a rule table with the engine
(PendulumController.add_table) appends it to the engine's consumed rule
set. -/
def add_table (c : Controller) (t : RuleTable) : Controller :=
  ⟨c.vars, c.tables ++ [t]⟩

/-- The angle variable O: names bound in order to the partition of
[-3 pi / 8, 3 pi / 8] into 7 categories (ip.py line 126). -/
noncomputable def Ovar : LingVar :=
  ⟨O_names.zip (flat_saw (-3 * π / 8) (3 * π / 8) 7)⟩

/-- The angular-velocity variable w: names bound in order to the
partition of [-3 pi, 3 pi] into 5 categories (ip.py line 137). -/
noncomputable def wvar : LingVar :=
  ⟨w_names.zip (flat_saw (-3 * π) (3 * π) 5)⟩

/-- The force output variable F: names bound in order to the partition of
[-100, 100] into 9 categories (ip.py line 152). -/
noncomputable def Fvar : LingVar :=
  ⟨F_names.zip (flat_saw (-100) 100 9)⟩

/-- The cart-position variable x: names bound in order to the partition
of [-10, 10] into 3 categories (ip.py line 176). -/
noncomputable def xvar : LingVar :=
  ⟨x_names.zip (flat_saw (-10) 10 3)⟩

/-- The cart-speed variable v: names bound in order to the partition of
[-6, 6] into 3 categories (ip.py line 182). -/
noncomputable def vvar : LingVar :=
  ⟨v_names.zip (flat_saw (-6) 6 3)⟩

/-- The primary rule table registered by create_controller
(ip.py lines 168-170). -/
def primary_table : RuleTable := ⟨O_names, w_names, table_names⟩

/-- create_controller (ip.py lines 112-195): the variables O, w, F, x, v
are stored on the controller in insertion order, and exactly one rule
table — the primary one — is registered through add_table; the secondary
registration is commented out and the secondary grid is not retained on
the controller. -/
noncomputable def create_controller : Controller :=
  add_table
    ⟨[("O", Ovar), ("w", wvar), ("F", Fvar), ("x", xvar), ("v", vvar)], []⟩
    primary_table

/-- Cell lookup in a rule table by row and column category name. -/
def RuleTable.lookup (t : RuleTable) (r c : String) : Option String := do
  let i ← t.rows.indexOf? r
  let j ← t.cols.indexOf? c
  let row ← t.cells.get? i
  row.get? j

/-- fmod as a scaled fractional part, for a nonzero modulus. -/
theorem fmod_eq_fract (a b : ℝ) (hb : b ≠ 0) :
    fmod a b = b * Int.fract (a / b) := by
  unfold fmod Int.fract
  rw [mul_sub]
  have h : b * (a / b) = a := by field_simp
  rw [h]

/-- The floor-style remainder lies in [0, b) for a positive modulus b. -/
theorem fmod_mem (a b : ℝ) (hb : 0 < b) : 0 ≤ fmod a b ∧ fmod a b < b := by
  rw [fmod_eq_fract a b hb.ne']
  refine ⟨mul_nonneg hb.le (Int.fract_nonneg _), ?_⟩
  calc b * Int.fract (a / b) < b * 1 :=
        (mul_lt_mul_left hb).mpr (Int.fract_lt_one _)
    _ = b := mul_one b

/-- pv always lands in the principal range [-pi, pi). -/
theorem pv_mem (x : ℝ) : -π ≤ pv x ∧ pv x < π := by
  have h := fmod_mem (x + π) (2 * π) Real.two_pi_pos
  unfold pv
  constructor <;> linarith [h.1, h.2]

/-- pv is congruent to its argument modulo 2 pi. -/
theorem pv_congruent (x : ℝ) : ∃ k : ℤ, pv x = x + 2 * π * k := by
  refine ⟨-⌊(x + π) / (2 * π)⌋, ?_⟩
  unfold pv fmod
  push_cast
  ring

/-- Uniqueness: any value of the principal range congruent to x modulo
2 pi is pv x. -/
theorem pv_eq_of_mem (x y : ℝ) (h1 : -π ≤ y) (h2 : y < π) (k : ℤ)
    (hk : x = y + 2 * π * k) : pv x = y := by
  have hb : (0 : ℝ) < 2 * π := Real.two_pi_pos
  have hfloor : ⌊(x + π) / (2 * π)⌋ = k := by
    have hx : (x + π) / (2 * π) = (y + π) / (2 * π) + k := by
      rw [hk]; field_simp; ring
    rw [hx, Int.floor_add_int]
    have h0 : (0 : ℝ) ≤ (y + π) / (2 * π) := by
      apply div_nonneg _ hb.le; linarith
    have h1' : (y + π) / (2 * π) < 1 := by
      rw [div_lt_one hb]; linarith
    rw [Int.floor_eq_zero_iff.mpr ⟨h0, h1'⟩, zero_add]
  unfold pv fmod
  rw [hfloor, hk]
  ring

/-- pv at the boundary pi wraps to -pi. -/
theorem pv_pi : pv π = -π := by
  refine pv_eq_of_mem π (-π) le_rfl (by linarith [Real.pi_pos]) 1 (by ring)

/-- pv fixes -pi. -/
theorem pv_neg_pi : pv (-π) = -π := by
  refine pv_eq_of_mem (-π) (-π) le_rfl (by linarith [Real.pi_pos]) 0 (by ring)

/-- pv fixes 0. -/
theorem pv_zero : pv 0 = 0 := by
  refine pv_eq_of_mem 0 0 (by linarith [Real.pi_pos]) Real.pi_pos 0 (by ring)

/-- pv restricted to the principal range is the identity. -/
theorem pv_fixed (x : ℝ) (h1 : -π ≤ x) (h2 : x < π) : pv x = x :=
  pv_eq_of_mem x x h1 h2 0 (by ring)

/-- pv is idempotent. -/
theorem pv_idem (x : ℝ) : pv (pv x) = pv x :=
  pv_fixed (pv x) (pv_mem x).1 (pv_mem x).2

/-- Away from the branch point (pv x = -pi), pv commutes with negation. -/
theorem pv_neg_eq (x : ℝ) (h : pv x ≠ -π) : pv (-x) = -pv x := by
  have hm := pv_mem x
  have hlt : -π < pv x := lt_of_le_of_ne hm.1 (Ne.symm h)
  obtain ⟨k, hk⟩ := pv_congruent x
  refine pv_eq_of_mem (-x) (-pv x) (by linarith [hm.2]) (by linarith) k ?_
  rw [hk]; ring

/-- The two angular-acceleration expressions agree. -/
theorem specQ_eq (p : Params) (s : State) (F : ℝ) :
    specQ p s F = qacc p s F := by
  unfold specQ qacc
  ring

/-- The two linear-acceleration expressions agree. -/
theorem specA_eq (p : Params) (s : State) (F : ℝ) :
    specA p s F = aacc p s F := by
  unfold specA aacc
  rw [specQ_eq]
  ring

/-- Every reachable state stores its angle in the principal range. -/
theorem reachable_O_mem (p : Params) (s : State) (h : Reachable p s) :
    -π ≤ s.O ∧ s.O < π := by
  induction h with
  | base =>
    have h0 : init.O = 0 := rfl
    rw [h0]
    exact ⟨by linarith [Real.pi_pos], Real.pi_pos⟩
  | set s O w x v _ _ => exact pv_mem O
  | step s F _ _ => exact pv_mem _

/-- The angular acceleration is odd under joint negation of state and
force. -/
theorem qacc_neg (p : Params) (s : State) (F : ℝ) :
    qacc p (negState s) (-F) = -qacc p s F := by
  simp only [qacc, negState]
  simp only [Real.sin_neg, Real.cos_neg]
  ring

/-- The linear acceleration is odd under joint negation of state and
force. -/
theorem aacc_neg (p : Params) (s : State) (F : ℝ) :
    aacc p (negState s) (-F) = -aacc p s F := by
  simp only [aacc]
  rw [qacc_neg]
  simp only [negState]
  simp only [Real.sin_neg, Real.cos_neg]
  ring

/-- One step from the zero state with zero force has zero angular
acceleration. -/
theorem qacc_init (p : Params) : qacc p init 0 = 0 := by
  simp [qacc, init]

/-- One step from the zero state with zero force has zero linear
acceleration. -/
theorem aacc_init (p : Params) : aacc p init 0 = 0 := by
  unfold aacc
  rw [qacc_init]
  simp [init]

/-- One step from the zero state with zero force returns the zero
state. -/
theorem apply_init (p : Params) : apply p init 0 = init := by
  unfold apply
  rw [qacc_init, aacc_init]
  simp [init, pv_zero]

/-- Claim C1: for every state, parameters and force, apply computes the
angular acceleration q and the linear acceleration a by the stated
formulas with g = 9.80665 and M = m + mc, updates in semi-implicit Euler
order (the updated angular velocity advances the angle and the updated
linear velocity advances the position), and returns the new state. -/
theorem claim_C1 (p : Params) (s : State) (F : ℝ) :
    apply p s F = applySpec p s F := by
  unfold apply applySpec
  rw [specQ_eq, specA_eq]

/-- Claim C2: pv, the floor-modulo principal-value transform, always
lands in [-pi, pi), is congruent to its argument modulo 2 pi, and maps
pi and -pi to -pi and 0 to 0. -/
theorem claim_C2 (x : ℝ) :
    (-π ≤ pv x ∧ pv x < π) ∧ (∃ k : ℤ, pv x = x + 2 * π * k) ∧
      pv π = -π ∧ pv (-π) = -π ∧ pv 0 = 0 :=
  ⟨pv_mem x, pv_congruent x, pv_pi, pv_neg_pi, pv_zero⟩

/-- Claim C3: every reachable state of the dynamics model — after
construction, after any set_state, after any apply — stores its angle in
the principal range [-pi, pi). -/
theorem claim_C3 (p : Params) (s : State) (h : Reachable p s) :
    -π ≤ s.O ∧ s.O < π :=
  reachable_O_mem p s h

/-- Witness for claim C3 at the freshly constructed model with the
default parameters of ip.py. -/
theorem claim_C3_witness : -π ≤ init.O ∧ init.O < π :=
  claim_C3 ⟨0.5, 0.1, 0.5, 0.01⟩ init Reachable.base

/-- Claim C4: the primary table registered by the controller assembly is
a total 7 x 5 grid: every (angle, angular-velocity) category pair resolves
to exactly one defined force category, with the both-negative corner at
Fvvbn, the both-positive corner at Fvvbp, and the center cell at Fz. -/
theorem claim_C4 :
    create_controller.tables = [primary_table] ∧
    table_names.length = 7 ∧
    (table_names.all fun r => r.length == 5) = true ∧
    (O_names.all fun o => w_names.all fun w =>
      match primary_table.lookup o w with
      | some f => F_names.contains f
      | none => false) = true ∧
    primary_table.lookup "Ovbn" "wbn" = some "Fvvbn" ∧
    primary_table.lookup "Ovbp" "wbp" = some "Fvvbp" ∧
    primary_table.lookup "Oz" "wz" = some "Fz" :=
  ⟨rfl, rfl, by decide, by decide, by decide, by decide, by decide⟩

/-- Claim C5: the upright centered equilibrium is an exact fixed point:
from the zero state, any number of zero-force steps returns the zero
state. -/
theorem claim_C5 (p : Params) (n : ℕ) : evolve p 0 n init = init := by
  induction n with
  | zero => rfl
  | succ n ih =>
    show evolve p 0 n (apply p init 0) = init
    rw [apply_init]
    exact ih

/-- Counterexample to claim C6 as stated: with parameters
(l, m, mc, dt) = (0.5, 0.1, 0.5, 1), the start state (0, pi, 0, 0) and
zero force, both the original and the negated run end with angle -pi, so
the results are not exact negations of each other (the angle wraps to the
same branch point, -pi, on both sides). -/
theorem claim_C6_counterexample :
    apply ⟨0.5, 0.1, 0.5, 1⟩ (negState ⟨0, π, 0, 0⟩) (-0) ≠
      negState (apply ⟨0.5, 0.1, 0.5, 1⟩ ⟨0, π, 0, 0⟩ 0) := by
  have hq1 : qacc ⟨0.5, 0.1, 0.5, 1⟩ ⟨0, π, 0, 0⟩ 0 = 0 := by
    simp [qacc]
  have ha1 : aacc ⟨0.5, 0.1, 0.5, 1⟩ ⟨0, π, 0, 0⟩ 0 = 0 := by
    unfold aacc
    rw [hq1]
    simp
  have hq2 : qacc ⟨0.5, 0.1, 0.5, 1⟩ (negState ⟨0, π, 0, 0⟩) (-0) = 0 := by
    rw [qacc_neg, hq1, neg_zero]
  have ha2 : aacc ⟨0.5, 0.1, 0.5, 1⟩ (negState ⟨0, π, 0, 0⟩) (-0) = 0 := by
    rw [aacc_neg, ha1, neg_zero]
  have hA : apply ⟨0.5, 0.1, 0.5, 1⟩ ⟨0, π, 0, 0⟩ 0 = ⟨-π, π, 0, 0⟩ := by
    unfold apply
    rw [hq1, ha1]
    norm_num [State.mk.injEq, pv_pi]
  have hB : apply ⟨0.5, 0.1, 0.5, 1⟩ (negState ⟨0, π, 0, 0⟩) (-0)
      = ⟨-π, -π, 0, 0⟩ := by
    unfold apply
    rw [hq2, ha2]
    norm_num [negState, State.mk.injEq, pv_neg_pi]
  intro h
  rw [hA, hB] at h
  have hO := congrArg State.O h
  simp only [negState] at hO
  have := Real.pi_pos
  linarith [hO]

/-- Claim C6 (amended): one apply step from the negated state with the
negated force is the exact negation of the step from the original state,
provided the advanced angle does not wrap to the branch point -pi of the
principal range (that is, it is not congruent to pi modulo 2 pi); at the
branch point both runs store angle -pi and the angles fail to negate,
while the angular-velocity, position and velocity components negate
exactly in all cases. -/
theorem claim_C6_amended (p : Params) (s : State) (F : ℝ)
    (h : pv (s.O + (s.w + qacc p s F * p.dt) * p.dt) ≠ -π) :
    apply p (negState s) (-F) = negState (apply p s F) := by
  unfold apply
  rw [qacc_neg, aacc_neg]
  simp only [negState, State.mk.injEq]
  refine ⟨?_, by ring, by ring, by ring⟩
  have harg : -s.O + (-s.w + -qacc p s F * p.dt) * p.dt
      = -(s.O + (s.w + qacc p s F * p.dt) * p.dt) := by ring
  rw [harg, pv_neg_eq _ h]

/-- Witness for the amended claim C6 at the zero state with the default
parameters of ip.py: the advanced angle is 0, away from the branch
point. -/
theorem claim_C6_witness :
    apply ⟨0.5, 0.1, 0.5, 0.01⟩ (negState init) (-0) =
      negState (apply ⟨0.5, 0.1, 0.5, 0.01⟩ init 0) :=
  claim_C6_amended ⟨0.5, 0.1, 0.5, 0.01⟩ init 0 (by
    rw [qacc_init]
    norm_num [init, pv_zero]
    linarith [Real.pi_pos])

/-- Claim C7: after set_state, get_state returns exactly
(pv O, w, x, v): the angle is normalized on write, the other components
pass through unchanged, in that fixed order; get_state is a pure read of
the stored fields. -/
theorem claim_C7 (O w x v : ℝ) :
    get_state (set_state O w x v) = (pv O, w, x, v) := rfl

/-- Counterexample to claim C8 as stated: the secondary 3 x 3 grid is not
part of the constructed controller's data at all — the controller carries
exactly the primary rule table, and no enabling flag or call exists (the
registration is commented out in the source), so the secondary grid is
absent from the assembly's data rather than present-but-unregistered. -/
theorem claim_C8_counterexample :
    create_controller.tables = [primary_table] ∧
    secondary_table_names ∉ create_controller.tables.map RuleTable.cells := by
  refine ⟨rfl, ?_⟩
  rw [show create_controller.tables = [primary_table] from rfl]
  simp only [List.map_cons, List.map_nil, List.mem_singleton]
  decide

/-- Claim C8 (amended): the secondary 3 x 3 grid (cart position x cart
velocity → force) is defined in the assembly source as a total mapping
into defined force categories, and its input variables x and v are
constructed and stored on the controller; but the grid is never
registered with the engine — the engine's consumed rule set is exactly
the primary table — nor retained in the controller's data, and no
enabling flag or explicit call exists: the registration is commented
out, leaving the capability inert in the program as written. -/
theorem claim_C8_amended :
    create_controller.tables = [primary_table] ∧
    create_controller.tables.length = 1 ∧
    secondary_table_names.length = 3 ∧
    (secondary_table_names.all fun r =>
      r.length == 3 && r.all fun f => F_names.contains f) = true ∧
    (create_controller.vars.map Prod.fst).contains "x" = true ∧
    (create_controller.vars.map Prod.fst).contains "v" = true ∧
    secondary_table_names ∉ create_controller.tables.map RuleTable.cells := by
  refine ⟨rfl, rfl, rfl, by decide, rfl, rfl, ?_⟩
  rw [show create_controller.tables = [primary_table] from rfl]
  simp only [List.map_cons, List.map_nil, List.mem_singleton]
  decide

/-- Claim C9: the controller assembly defines exactly the five linguistic
variables O, w, F, x, v in that order, each with the specified range and
category count handed to the partitioner and with the listed category
names bound one-to-one, low to high, to the partitioner's output. -/
theorem claim_C9 :
    create_controller.vars
      = [("O", Ovar), ("w", wvar), ("F", Fvar), ("x", xvar), ("v", vvar)] ∧
    Ovar.adjectives.map Prod.fst = O_names ∧
    Ovar.adjectives.map Prod.snd = flat_saw (-3 * π / 8) (3 * π / 8) 7 ∧
    Ovar.adjectives.length = 7 ∧
    wvar.adjectives.map Prod.fst = w_names ∧
    wvar.adjectives.map Prod.snd = flat_saw (-3 * π) (3 * π) 5 ∧
    wvar.adjectives.length = 5 ∧
    Fvar.adjectives.map Prod.fst = F_names ∧
    Fvar.adjectives.map Prod.snd = flat_saw (-100) 100 9 ∧
    Fvar.adjectives.length = 9 ∧
    xvar.adjectives.map Prod.fst = x_names ∧
    xvar.adjectives.map Prod.snd = flat_saw (-10) 10 3 ∧
    xvar.adjectives.length = 3 ∧
    vvar.adjectives.map Prod.fst = v_names ∧
    vvar.adjectives.map Prod.snd = flat_saw (-6) 6 3 ∧
    vvar.adjectives.length = 3 :=
  ⟨rfl, rfl, rfl, rfl, rfl, rfl, rfl, rfl, rfl, rfl, rfl, rfl, rfl, rfl,
   rfl, rfl⟩

/-- Claim C10: for every reachable state, feeding the tuple returned by
get_state back into set_state leaves the state unchanged: the stored
angle is already in principal-value form, pv fixes it, and the other
components pass through. -/
theorem claim_C10 (p : Params) (s : State) (h : Reachable p s) :
    set_state (get_state s).1 (get_state s).2.1 (get_state s).2.2.1
      (get_state s).2.2.2 = s := by
  obtain ⟨h1, h2⟩ := reachable_O_mem p s h
  cases s with
  | mk O w x v =>
    have hO : pv O = O := pv_fixed O h1 h2
    simp [get_state, set_state, hO]

/-- Witness for claim C10 at the freshly constructed model with the
default parameters of ip.py. -/
theorem claim_C10_witness :
    set_state (get_state init).1 (get_state init).2.1 (get_state init).2.2.1
      (get_state init).2.2.2 = init :=
  claim_C10 ⟨0.5, 0.1, 0.5, 0.01⟩ init Reachable.base

end IP
